import Mathlib

/-!
# Verification of the concurrency core of the `coq` completion engine

Shallow embedding of:
* `coq/lsp/requests/request.py` — the epoch-tagged reply correlator
  (`_Session`, `_Payload`, `_lsp_notify`, the opening part and the consumer
  loop of `async_request`);
* `coq/server/registrants/omnifunc.py` — the gating predicate `_should_cont`,
  the supervisor loop (`c1`/`c2` inside `_launch_loop`), and `_resolve`;
* `coq/shared/executor.py` — the serial `Executor`.

Python integers become `Int`/`Nat`, uuids become `Nat`, strings stay `String`,
payload values are a type parameter `V`, and the mutable module-level
dictionaries become explicit state records threaded through the functions.
-/

set_option maxHeartbeats 1000000

/-! ## coq/lsp/requests/request.py -/

/-- Structure `_Session` from request.py: current epoch `uid`, terminal flag `done`,
and the accumulated `(client, reply)` pairs `acc`. -/
structure _Session (V : Type) where
  uid : Int
  done : Bool
  acc : List (Option String × V)
deriving DecidableEq

/-- Structure `_Payload` from request.py. -/
structure _Payload (V : Type) where
  method : String
  uid : Int
  client : Option String
  done : Bool
  reply : V
deriving DecidableEq

/-- The module-level mutable state of request.py: the `_UIDS` counter and the
`_STATE` defaultdict (every absent key reads as `_Session(uid=-1, done=True,
acc=())`), modelled as a total function. -/
structure LspState (V : Type) where
  uids : Nat
  state : String → _Session V

/-- Initial module state: counter at zero, every channel at the defaultdict
default session. -/
def initLsp (V : Type) : LspState V :=
  { uids := 0, state := fun _ => { uid := -1, done := true, acc := [] } }

/-- Function `_lsp_notify` (the `cont` coroutine body): if the payload uid matches the
channel's current session uid, replace the session with one holding the same
uid, the payload's `done`, and the pair appended to `acc`; otherwise leave the
state untouched.  The returned boolean records that `cond.notify_all()` runs
in either case. -/
def _lsp_notify (st : LspState V) (p : _Payload V) : LspState V × Bool :=
  if p.uid = (st.state p.method).uid then
    ({ st with
        state := fun m =>
          if m = p.method then
            { uid := p.uid
              done := p.done
              acc := (st.state p.method).acc ++ [(p.client, p.reply)] }
          else st.state m },
     true)
  else (st, true)

/-- The opening part of `async_request` (lines 64–69): draw a fresh uid from
`_UIDS`, replace the channel's session with `_Session(uid=uid, done=False,
acc=())`, and return the uid to the caller. -/
def async_request_open (st : LspState V) (method : String) :
    LspState V × Int :=
  ({ uids := st.uids + 1
     state := fun m =>
       if m = method then { uid := (st.uids : Int), done := false, acc := [] }
       else st.state m },
   (st.uids : Int))

/-- The consumer loop of `async_request` (lines 76–87), run over the list of
session snapshots the consumer observes at its successive wakeups.  Returns
the yielded items and whether the loop exited (`true`) or is still blocked on
the condition (`false`).  Faithful to the source: in the matching branch the
whole `acc` is yielded and the `if done: break` test reads the local `done`,
which is bound to `False` at line 64 and never reassigned, so that branch
never breaks. -/
def consumerRun (uid : Int) : List (_Session V) → List (Option String × V) × Bool
  | [] => ([], false)
  | sess :: rest =>
    if sess.uid = uid then
      let r := consumerRun uid rest
      (sess.acc ++ r.1, r.2)
    else if uid < sess.uid then ([], true)
    else consumerRun uid rest

/-- The two events that mutate the request-module state. -/
inductive LspEv (V : Type) where
  | openReq (method : String)
  | notify (p : _Payload V)

/-- One event's effect on the module state. -/
def runEv (st : LspState V) : LspEv V → LspState V
  | .openReq m => (async_request_open st m).1
  | .notify p => (_lsp_notify st p).1

/-- Effect of a whole event trace. -/
def runEvs (st : LspState V) (evs : List (LspEv V)) : LspState V :=
  evs.foldl runEv st

/-- The uids handed out to callers of `async_request`, in call order, over an
event trace. -/
def runUids (st : LspState V) : List (LspEv V) → List Int
  | [] => []
  | .openReq m :: rest =>
    (async_request_open st m).2 :: runUids (async_request_open st m).1 rest
  | .notify p :: rest => runUids (_lsp_notify st p).1 rest

/-- Every item sitting in some channel's accumulator entered through a
`notify` event of the trace whose uid equals the session's current uid. -/
def AccOk (st : LspState V) (evs : List (LspEv V)) : Prop :=
  ∀ m item, item ∈ (st.state m).acc →
    ∃ p : _Payload V, LspEv.notify p ∈ evs ∧ p.method = m ∧
      p.uid = (st.state m).uid ∧ item = (p.client, p.reply)

/-! ## coq/server/registrants/omnifunc.py — data model and `_should_cont` -/

/-- The kind of a completion's `ex tern` field as far as the orchestration
code inspects it: `ExternLSP`, `ExternPath(is_dir)`, or anything else. -/
inductive CompKind where
  | lspKind
  | pathKind (isDir : Bool)
  | noKind
deriving DecidableEq

/-- The slice of a completion item the orchestration code reads: its uuid,
its kind, and its `secondary_edits`.  Edits are a type parameter `E`. -/
structure Comp (E : Type) where
  uid : Nat
  kind : CompKind
  secondary_edits : List E
deriving DecidableEq

/-- A `Metric` wrapping a completion; all other fields are opaque to the
orchestration code and collapsed into `extra`. -/
structure Metric (E X : Type) where
  comp : Comp E
  extra : X
deriving DecidableEq

/-- The slice of a `Context` read by `_should_cont`. -/
structure Ctx where
  manual : Bool
  change_id : Nat
  position : Int × Int
  syms_before : String
  line_before : String
deriving DecidableEq

/-- The slice of the server `State` read by `_should_cont`. -/
structure SrvState (E X : Type) where
  inserted_pos : Int × Int
  last_edit : Metric E X
deriving DecidableEq

/-- Python `str.isspace`-style test for the characters `str.rstrip` removes
(ASCII whitespace). -/
def pyIsSpace (c : Char) : Bool :=
  c = ' ' || c = '\t' || c = '\n' || c = '\r' || c = '\x0b' || c = '\x0c'

/-- Python `str.rstrip()`: drop trailing whitespace. -/
def pyRstrip (s : String) : String :=
  ⟨(s.data.reverse.dropWhile pyIsSpace).reverse⟩

/-- The predicate `_should_cont` from omnifunc.py, translated branch for branch. -/
def _should_cont (state : SrvState E X) (prev cur : Ctx) : Bool :=
  if cur.manual then true
  else if prev.change_id = cur.change_id then false
  else if cur.position = state.inserted_pos then
    match state.last_edit.comp.kind with
    | CompKind.pathKind isDir => isDir
    | _ => false
  else if cur.syms_before ≠ "" then true
  else
    let stripped := pyRstrip cur.line_before
    decide (stripped ≠ "") && decide (cur.line_before.length - stripped.length ≤ 1)

/-! ## `_resolve` from omnifunc.py -/

/-- Modelled from the spec: the outcome observed by `_resolve` after
`wait((go(nvim, aw=resolve(...)),), timeout=...)` — the bodies of `resolve`
(coq/lsp/requests/resolve.py) and of the `go` wrapper are outside the
embedded sources.  `timedOut` is the empty `done` set; `completed none`
covers both a surfaced failure (per the spec's failure policy the wrapper
logs it and yields no completion) and an empty reply; `completed (some c)`
is a reply carrying completion `c`. -/
inductive WaitResult (C : Type) where
  | timedOut
  | completed (c : Option C)

/-- Function `_resolve` from omnifunc.py: pass non-LSP metrics through untouched;
on an LRU hit merge the cached `secondary_edits`; otherwise decide by the
wait outcome — no reply means the original metric, a reply means its
`secondary_edits` merged in. -/
def _resolve (lru : Nat → Option (Comp E)) (metric : Metric E X)
    (wr : WaitResult (Comp E)) : Metric E X :=
  match metric.comp.kind with
  | CompKind.lspKind =>
    match lru metric.comp.uid with
    | some comp =>
      { metric with
          comp := { metric.comp with secondary_edits := comp.secondary_edits } }
    | none =>
      match wr with
      | WaitResult.timedOut => metric
      | WaitResult.completed none => metric
      | WaitResult.completed (some comp) =>
        { metric with
            comp := { metric.comp with secondary_edits := comp.secondary_edits } }
  | _ => metric

/-! ## coq/shared/executor.py -/

/-- A `concurrent.futures.Future` as used by `Executor.submit`: unsettled,
settled with a value, or settled with an exception. -/
inductive Slot (E B : Type) where
  | empty
  | value (b : B)
  | failed (e : E)
deriving DecidableEq

/-- Python `Future.set_result`: raises `InvalidStateError` (the `Except` error) when
the future is already settled. -/
def set_result (s : Slot E B) (b : B) : Except Unit (Slot E B) :=
  match s with
  | Slot.empty => Except.ok (Slot.value b)
  | _ => Except.error ()

/-- Python `Future.set_exception`: raises `InvalidStateError` when already settled. -/
def set_exception (s : Slot E B) (e : E) : Except Unit (Slot E B) :=
  match s with
  | Slot.empty => Except.ok (Slot.failed e)
  | _ => Except.error ()

/-- The `with suppress(InvalidStateError)` wrapper around a settling call: on the
error the slot is left as it was. -/
def suppressInvalid (s : Slot E B) : Except Unit (Slot E B) → Slot E B
  | Except.ok s2 => s2
  | Except.error _ => s

/-- The body of `cont` in `Executor.submit`: run `f`; on an exception settle
the future with it, otherwise settle it with the result, both under
`suppress(InvalidStateError)`.  The outer `Except Unit` is an exception
escaping `cont` (which would kill the worker loop); the `try`/`except
Exception` structure means both branches return `ok`. -/
def contRun (f : Unit → Except E B) (fut : Slot E B) :
    Except Unit (Slot E B) :=
  match f () with
  | Except.error e => Except.ok (suppressInvalid fut (set_exception fut e))
  | Except.ok b => Except.ok (suppressInvalid fut (set_result fut b))

/-- Python `Future.result()` once the worker is done with the item: `none` would
mean the future was never settled (the caller still blocked); otherwise the
value, or the exception re-raised in the caller. -/
def futResult (s : Slot E B) : Option (Except E B) :=
  match s with
  | Slot.empty => none
  | Slot.value b => some (Except.ok b)
  | Slot.failed e => some (Except.error e)

/-- Python `Executor.submit f`: the worker runs `cont` against the fresh future and
the caller reads `fut.result()`. -/
def submit (f : Unit → Except E B) : Option (Except E B) :=
  match contRun f Slot.empty with
  | Except.ok slot => futResult slot
  | Except.error _ => none

/-- The slot a submission's future ends in after the worker ran its `cont`. -/
def settledSlot (f : Unit → Except E B) : Slot E B :=
  match f () with
  | Except.ok b => Slot.value b
  | Except.error e => Slot.failed e

/-- The worker loop `_forever` over a finite queue of submissions, each with
its own fresh future: items run strictly in order, and an exception escaping
an item's `cont` (outer `Except.error`) would terminate the loop, leaving
later items unexecuted. -/
def workerLoop (fs : List (Unit → Except E B)) :
    Except Unit (List (Slot E B)) :=
  match fs with
  | [] => Except.ok []
  | f :: rest =>
    match contRun f Slot.empty with
    | Except.error u => Except.error u
    | Except.ok slot =>
      match workerLoop rest with
      | Except.error u => Except.error u
      | Except.ok slots => Except.ok (slot :: slots)

/-! ## The supervisor loop (`_launch_loop` in omnifunc.py)

`c1` pulls trigger events off the queue `_Q` into the shared `incoming` slot
and sets `event`; `c2` waits on `event`, clears it, cancels-and-awaits the
current completion task if any, and then creates a new task from `incoming`.
The trigger data (the `(State, manual)` pair) is opaque to this loop and is a
type parameter `σ`.  Tasks are recorded in creation order with a status. -/

/-- Status of a completion-cycle (`c0`) task: running, cooperatively
cancelled (after `await cancel(task)` returned), or completed normally. -/
inductive TStatus where
  | running
  | cancelled
  | finished
deriving DecidableEq

/-- One completion-cycle task: the trigger data it was created with, and its
current status. -/
structure TaskRec (σ : Type) where
  data : σ
  status : TStatus
deriving DecidableEq

/-- Program counter of the `c2` coroutine, at its suspension points:
blocked on `event.wait()`, about to run `await cancel(task)`, or about to
run the `if incoming:` task creation. -/
inductive SupPc where
  | idle
  | cancelling
  | creating
deriving DecidableEq

/-- State of the supervisor system: the queue `_Q` (`pending`), the ghost
history of triggers already pulled by `c1` (`delivered`), the shared
`incoming` slot, the `event` flag, the `task` variable as an index `cur`
into the history `tasks` of all tasks ever created, and `c2`'s program
counter. -/
structure Supervisor (σ : Type) where
  pending : List σ
  delivered : List σ
  incoming : Option σ
  event : Bool
  cur : Option Nat
  tasks : List (TaskRec σ)
  pc : SupPc
deriving DecidableEq

/-- Replace the `i`-th element of a list by `f` of it. -/
def modifyAt (f : α → α) : Nat → List α → List α
  | _, [] => []
  | 0, a :: rest => f a :: rest
  | n + 1, a :: rest => a :: modifyAt f n rest

/-- Effect of `await cancel(task)` on a task record: a running task is
cancelled (and its termination awaited); an already terminated task is
unchanged (`cancel` on a done task is a no-op). -/
def cancelRec (r : TaskRec σ) : TaskRec σ :=
  if r.status = TStatus.running then { r with status := TStatus.cancelled }
  else r

/-- A task completing normally. -/
def finishRec (r : TaskRec σ) : TaskRec σ :=
  { r with status := TStatus.finished }

/-- The statement `if task: await cancel(task)` — cancel the task the `task` variable
points at, if any. -/
def cancelCur : Option Nat → List (TaskRec σ) → List (TaskRec σ)
  | none, ts => ts
  | some i, ts => modifyAt cancelRec i ts

/-- Initial supervisor state for a burst: the whole burst already sits in
`_Q`, nothing delivered, no task, `event` clear, `c2` blocked on the event. -/
def supInit (burst : List σ) : Supervisor σ :=
  { pending := burst, delivered := [], incoming := none, event := false,
    cur := none, tasks := [], pc := SupPc.idle }

/-- Interleaved small-step semantics of the supervisor system.

* `deliver` — one `c1` iteration: `incoming = await to_thread(_Q.get)`
  followed by `event.set()` (no suspension between the two).
* `wake` — `c2` returns from `event.wait()` and runs `event.clear()`.
* `cancelStep` — `c2` runs `if task: await cancel(task)`; when the step
  completes the pointed-to task is no longer running.
* `createSome`/`createNone` — `c2` runs `if incoming:` and, when the slot is
  filled, creates a new task from it and stores it in `task`.
* `finish` — a running completion task completes normally at some instant.
-/
inductive SupStep : Supervisor σ → Supervisor σ → Prop where
  | deliver (s : Supervisor σ) (t : σ) (rest : List σ)
      (hp : s.pending = t :: rest) :
      SupStep s { s with
        pending := rest, delivered := s.delivered ++ [t],
        incoming := some t, event := true }
  | wake (s : Supervisor σ) (hpc : s.pc = SupPc.idle) (he : s.event = true) :
      SupStep s { s with event := false, pc := SupPc.cancelling }
  | cancelStep (s : Supervisor σ) (hpc : s.pc = SupPc.cancelling) :
      SupStep s { s with
        tasks := cancelCur s.cur s.tasks, pc := SupPc.creating }
  | createSome (s : Supervisor σ) (t : σ) (hpc : s.pc = SupPc.creating)
      (hi : s.incoming = some t) :
      SupStep s { s with
        tasks := s.tasks ++ [⟨t, TStatus.running⟩],
        cur := some s.tasks.length, pc := SupPc.idle }
  | createNone (s : Supervisor σ) (hpc : s.pc = SupPc.creating)
      (hi : s.incoming = none) :
      SupStep s { s with pc := SupPc.idle }
  | finish (s : Supervisor σ) (i : Nat) (r : TaskRec σ)
      (hr : s.tasks.get? i = some r) (hrun : r.status = TStatus.running) :
      SupStep s { s with tasks := modifyAt finishRec i s.tasks }

/-- Quiescent supervisor state: the whole burst has been pulled off `_Q`,
the event flag has been consumed, and `c2` is parked on `event.wait()` —
the supervisor is done processing the burst, so no further cancellation can
originate from it. -/
def Quiescent (s : Supervisor σ) : Prop :=
  s.pending = [] ∧ s.event = false ∧ s.pc = SupPc.idle

/-- Core safety invariant of the supervisor: every running task is the one
the `task` variable points at, and at `c2`'s creation point the pointed-to
task is no longer running (its cancellation was awaited). -/
def SupInv (s : Supervisor σ) : Prop :=
  (∀ i r, s.tasks.get? i = some r → r.status = TStatus.running →
      s.cur = some i)
  ∧ (s.pc = SupPc.creating →
      ∀ i r, s.cur = some i → s.tasks.get? i = some r →
        r.status ≠ TStatus.running)

/-- Ghost invariant over the unrestricted step relation: `c1` preserves the
burst (delivered prefix plus queued suffix); `incoming` holds the most
recently delivered trigger; a task exists only once something was
delivered; while `c2` is parked at `event.wait()` the retained task is not
cancelled (a cancelled task is always replaced before `c2` parks again);
and in a quiescent state the retained task was created from the last
trigger of the burst. -/
def SupInvQ (burst : List σ) (s : Supervisor σ) : Prop :=
  s.delivered ++ s.pending = burst
  ∧ s.incoming = s.delivered.getLast?
  ∧ (s.incoming = none → s.cur = none)
  ∧ (s.pc = SupPc.idle → ∀ i r, s.cur = some i → s.tasks.get? i = some r →
      r.status ≠ TStatus.cancelled)
  ∧ (Quiescent s → ∀ i r, s.cur = some i → s.tasks.get? i = some r →
      some r.data = burst.getLast?)

/-! ## Helper lemmas about `modifyAt`, `List.get` on appends, `getLast?` -/

theorem length_modifyAt (f : α → α) (n : Nat) (l : List α) :
    (modifyAt f n l).length = l.length := by
  induction l generalizing n with
  | nil => cases n <;> rfl
  | cons a rest ih =>
    cases n with
    | zero => rfl
    | succ k => simp [modifyAt, ih]

theorem get?_modifyAt (f : α → α) (n i : Nat) (l : List α) :
    (modifyAt f n l).get? i =
      if i = n then (l.get? i).map f else l.get? i := by
  induction l generalizing n i with
  | nil => cases n <;> cases i <;> simp [modifyAt]
  | cons a rest ih =>
    cases n with
    | zero =>
      cases i with
      | zero => simp [modifyAt]
      | succ j => simp [modifyAt]
    | succ k =>
      cases i with
      | zero => simp [modifyAt]
      | succ j => simpa [modifyAt, Nat.succ_inj] using ih k j

theorem mem_modifyAt (f : α → α) (n : Nat) (l : List α) (r : α)
    (h : r ∈ modifyAt f n l) : ∃ r0 ∈ l, r = f r0 ∨ r = r0 := by
  induction l generalizing n with
  | nil => simp [modifyAt] at h
  | cons a rest ih =>
    cases n with
    | zero =>
      rcases (List.mem_cons).1 h with h1 | h1
      · exact ⟨a, List.mem_cons_self a rest, Or.inl h1⟩
      · exact ⟨r, List.mem_cons_of_mem a h1, Or.inr rfl⟩
    | succ k =>
      rcases (List.mem_cons).1 h with h1 | h1
      · exact ⟨a, List.mem_cons_self a rest, Or.inr h1⟩
      · rcases ih k h1 with ⟨r0, hr0, hcase⟩
        exact ⟨r0, List.mem_cons_of_mem a hr0, hcase⟩

theorem get?_concat (l : List α) (a : α) (i : Nat) :
    (l ++ [a]).get? i =
      if i < l.length then l.get? i
      else if i = l.length then some a else none := by
  induction l generalizing i with
  | nil => cases i <;> simp
  | cons b rest ih =>
    cases i with
    | zero => simp
    | succ j => simpa [Nat.succ_lt_succ_iff, Nat.succ_inj] using ih j

theorem cancelRec_not_running (r : TaskRec σ) :
    (cancelRec r).status ≠ TStatus.running := by
  unfold cancelRec
  split <;> simp_all

theorem cancelRec_data (r : TaskRec σ) : (cancelRec r).data = r.data := by
  unfold cancelRec
  split <;> rfl

theorem getLast?_concat_eq (l : List α) (a : α) :
    (l ++ [a]).getLast? = some a := by
  rw [List.getLast?_append_cons]
  rfl

/-! ## Supervisor invariant preservation -/

theorem supInv_step {σ : Type} {s s2 : Supervisor σ} (h : SupStep s s2)
    (hin : SupInv s) : SupInv s2 := by
  obtain ⟨h1, h2⟩ := hin
  cases h with
  | deliver t rest hp => exact ⟨h1, h2⟩
  | wake hpc he =>
    refine ⟨h1, ?_⟩
    intro hcr
    simp at hcr
  | cancelStep hpc =>
    constructor
    · intro i r hget hrun
      have hget2 : (cancelCur s.cur s.tasks).get? i = some r := hget
      show s.cur = some i
      cases hsc : s.cur with
      | none =>
        rw [hsc] at hget2
        simp only [cancelCur] at hget2
        have hc := h1 i r hget2 hrun
        rw [hsc] at hc
        exact hc
      | some j =>
        rw [hsc] at hget2
        simp only [cancelCur, get?_modifyAt] at hget2
        by_cases hij : i = j
        · rw [if_pos hij] at hget2
          rcases Option.map_eq_some'.1 hget2 with ⟨r0, _, hr0⟩
          exact absurd hrun (hr0 ▸ cancelRec_not_running r0)
        · rw [if_neg hij] at hget2
          have hc := h1 i r hget2 hrun
          rw [hsc] at hc
          exact hc
    · intro _ i r hcur hget
      have hcur2 : s.cur = some i := hcur
      have hget2 : (cancelCur s.cur s.tasks).get? i = some r := hget
      rw [hcur2] at hget2
      simp only [cancelCur, get?_modifyAt, if_true, eq_self_iff_true] at hget2
      rcases Option.map_eq_some'.1 hget2 with ⟨r0, _, hr0⟩
      exact hr0 ▸ cancelRec_not_running r0
  | createSome t hpc hi =>
    constructor
    · intro i r hget hrun
      have hget2 :
          (s.tasks ++ [TaskRec.mk t TStatus.running]).get? i = some r := hget
      rw [get?_concat] at hget2
      show some s.tasks.length = some i
      split at hget2
      · exact absurd hrun (h2 hpc i r (h1 i r hget2 hrun) hget2)
      · split at hget2
        · next _ hie =>
          rw [hie]
        · simp at hget2
    · intro hcr
      simp at hcr
  | createNone hpc hi =>
    refine ⟨h1, ?_⟩
    intro hcr
    simp at hcr
  | finish i r hr hrun =>
    constructor
    · intro i2 r2 hget hrun2
      have hget2 : (modifyAt finishRec i s.tasks).get? i2 = some r2 := hget
      rw [get?_modifyAt] at hget2
      show s.cur = some i2
      by_cases hij : i2 = i
      · rw [if_pos hij] at hget2
        rcases Option.map_eq_some'.1 hget2 with ⟨r0, _, hr0⟩
        rw [← hr0] at hrun2
        simp [finishRec] at hrun2
      · rw [if_neg hij] at hget2
        exact h1 i2 r2 hget2 hrun2
    · intro hcr i2 r2 hcur hget
      have hcr2 : s.pc = SupPc.creating := hcr
      exact absurd hrun (h2 hcr2 i r (h1 i r hr hrun) hr)

theorem supInv_reach {σ : Type} {burst : List σ} {s : Supervisor σ}
    (h : Relation.ReflTransGen (SupStep (σ := σ)) (supInit burst) s) :
    SupInv s := by
  induction h with
  | refl =>
    constructor
    · intro i r hget _
      simp [supInit] at hget
    · intro hpc
      simp [supInit] at hpc
  | tail hab hbc ih => exact supInv_step hbc ih

theorem finishRec_data (r : TaskRec σ) : (finishRec r).data = r.data := rfl

theorem supInvQ_step {σ : Type} {burst : List σ} {s s2 : Supervisor σ}
    (h : SupStep s s2) (hin : SupInvQ burst s) : SupInvQ burst s2 := by
  obtain ⟨hq, hinc, hnone, hidle, hquiet⟩ := hin
  cases h with
  | deliver t rest hp =>
    refine ⟨?_, ?_, ?_, hidle, ?_⟩
    · show (s.delivered ++ [t]) ++ rest = burst
      rw [List.append_assoc]
      rw [hp] at hq
      simpa using hq
    · show some t = (s.delivered ++ [t]).getLast?
      rw [getLast?_concat_eq]
    · intro hn
      exact absurd hn (by simp)
    · intro hq5
      have he : (true : Bool) = false := hq5.2.1
      simp at he
  | wake hpc he =>
    refine ⟨hq, hinc, hnone, ?_, ?_⟩
    · intro hpc2
      simp at hpc2
    · intro hq5
      have hp5 : SupPc.cancelling = SupPc.idle := hq5.2.2
      simp at hp5
  | cancelStep hpc =>
    refine ⟨hq, hinc, hnone, ?_, ?_⟩
    · intro hpc2
      simp at hpc2
    · intro hq5
      have hp5 : SupPc.creating = SupPc.idle := hq5.2.2
      simp at hp5
  | createSome t hpc hi =>
    refine ⟨hq, hinc, ?_, ?_, ?_⟩
    · intro hn
      have hn2 : s.incoming = none := hn
      rw [hi] at hn2
      exact absurd hn2 (by simp)
    · intro _ i r hcur hget
      have hil : s.tasks.length = i := Option.some.inj hcur
      have hget2 :
          (s.tasks ++ [TaskRec.mk t TStatus.running]).get? i = some r := hget
      rw [get?_concat, ← hil] at hget2
      rw [if_neg (lt_irrefl _), if_pos rfl] at hget2
      have h4 : TaskRec.mk t TStatus.running = r := Option.some.inj hget2
      rw [← h4]
      intro hcon
      cases hcon
    · intro hq5 i r hcur hget
      have hpend : s.pending = [] := hq5.1
      have hdel : s.delivered = burst := by
        rw [hpend] at hq
        simpa using hq
      have hil : s.tasks.length = i := Option.some.inj hcur
      have hget2 :
          (s.tasks ++ [TaskRec.mk t TStatus.running]).get? i = some r := hget
      rw [get?_concat, ← hil] at hget2
      rw [if_neg (lt_irrefl _), if_pos rfl] at hget2
      have h4 : TaskRec.mk t TStatus.running = r := Option.some.inj hget2
      rw [← h4]
      show some t = burst.getLast?
      rw [← hdel, ← hinc, hi]
  | createNone hpc hi =>
    refine ⟨hq, hinc, hnone, ?_, ?_⟩
    · intro _ i r hcur hget
      have hc2 : s.cur = some i := hcur
      rw [hnone hi] at hc2
      exact absurd hc2 (by simp)
    · intro _ i r hcur hget
      have hc2 : s.cur = some i := hcur
      rw [hnone hi] at hc2
      exact absurd hc2 (by simp)
  | finish i r hr hrun =>
    refine ⟨hq, hinc, hnone, ?_, ?_⟩
    · intro hpc2 i2 r2 hcur hget
      have hget2 : (modifyAt finishRec i s.tasks).get? i2 = some r2 := hget
      rw [get?_modifyAt] at hget2
      by_cases hij : i2 = i
      · rw [if_pos hij] at hget2
        rcases Option.map_eq_some'.1 hget2 with ⟨r0, _, hr0⟩
        rw [← hr0]
        intro hcon
        cases hcon
      · rw [if_neg hij] at hget2
        exact hidle hpc2 i2 r2 hcur hget2
    · intro hq5 i2 r2 hcur hget
      have hq6 : Quiescent s := hq5
      have hget2 : (modifyAt finishRec i s.tasks).get? i2 = some r2 := hget
      rw [get?_modifyAt] at hget2
      by_cases hij : i2 = i
      · rw [if_pos hij] at hget2
        rcases Option.map_eq_some'.1 hget2 with ⟨r0, hr0get, hr0⟩
        rw [← hr0]
        show some (finishRec r0).data = burst.getLast?
        rw [finishRec_data]
        exact hquiet hq6 i2 r0 hcur hr0get
      · rw [if_neg hij] at hget2
        exact hquiet hq6 i2 r2 hcur hget2

theorem supInvQ_reach {σ : Type} {burst : List σ} {s : Supervisor σ}
    (h : Relation.ReflTransGen (SupStep (σ := σ)) (supInit burst) s) :
    SupInvQ burst s := by
  induction h with
  | refl =>
    refine ⟨by simp [supInit], by simp [supInit], fun _ => rfl, ?_, ?_⟩
    · intro _ i r hcur _
      simp [supInit] at hcur
    · intro _ i r hcur _
      simp [supInit] at hcur
  | tail hab hbc ih => exact supInvQ_step hbc ih

/-! ## Claim theorems -/

/-- C1: For every burst of trigger events handed to the Supervisor loop, in
every reachable state of the unrestricted interleaving of `c1`, `c2` and
task completion: (1) at most one completion-cycle task is in the running
state at any instant — any two running entries of the task history
coincide; (2) at `c2`'s creation point the previously created task has been
cancelled and its termination awaited (it is no longer running); and (3)
once the supervisor has consumed the whole burst and parked again on
`event.wait()` (a quiescent state), the retained task — the only one that
can still be running, and the one that now runs on without being cancelled,
since nothing of the burst remains to supersede it — is not cancelled and
was created with the data of the last trigger of the burst.  Intermediate
tasks created from earlier triggers while later triggers were still queued
are genuine behaviours of the model; they are cancelled and superseded
before the supervisor parks. -/
theorem c1_supervisor_single_flight {σ : Type} (burst : List σ)
    (s : Supervisor σ)
    (h : Relation.ReflTransGen (SupStep (σ := σ)) (supInit burst) s) :
    (∀ i j r1 r2, s.tasks.get? i = some r1 → s.tasks.get? j = some r2 →
        r1.status = TStatus.running → r2.status = TStatus.running → i = j)
    ∧ (s.pc = SupPc.creating →
        ∀ i r, s.cur = some i → s.tasks.get? i = some r →
          r.status ≠ TStatus.running)
    ∧ (Quiescent s →
        ∀ i r, s.cur = some i → s.tasks.get? i = some r →
          r.status ≠ TStatus.cancelled
          ∧ some r.data = burst.getLast?) := by
  have hinv := supInv_reach h
  have hinvQ := supInvQ_reach h
  refine ⟨?_, hinv.2, ?_⟩
  · intro i j r1 r2 hi hj hri hrj
    have hci := hinv.1 i r1 hi hri
    have hcj := hinv.1 j r2 hj hrj
    rw [hci] at hcj
    exact Option.some.inj hcj
  · intro hq5 i r hcur hget
    exact ⟨hinvQ.2.2.2.1 hq5.2.2 i r hcur hget,
      hinvQ.2.2.2.2 hq5 i r hcur hget⟩

/-- Witness for C1 on the burst `[1, 2]`, along the interleaving in which a
task is created from trigger 1 while trigger 2 is still queued: deliver 1,
wake, cancel (no task yet), create the trigger-1 task, deliver 2, wake,
cancel (the trigger-1 task is cancelled), create the trigger-2 task.  The
resulting state is quiescent and the theorem yields that the retained task
is uncancelled and carries the last trigger's data. -/
theorem c1_supervisor_single_flight_witness :
    TStatus.running ≠ TStatus.cancelled
    ∧ some (2 : Nat) = ([1, 2] : List Nat).getLast? := by
  have t1 : SupStep (σ := Nat) (supInit [1, 2])
      { pending := [2], delivered := [1], incoming := some 1, event := true,
        cur := none, tasks := [], pc := SupPc.idle } :=
    SupStep.deliver _ 1 [2] rfl
  have t2 : SupStep (σ := Nat)
      { pending := [2], delivered := [1], incoming := some 1, event := true,
        cur := none, tasks := [], pc := SupPc.idle }
      { pending := [2], delivered := [1], incoming := some 1, event := false,
        cur := none, tasks := [], pc := SupPc.cancelling } :=
    SupStep.wake _ rfl rfl
  have t3 : SupStep (σ := Nat)
      { pending := [2], delivered := [1], incoming := some 1, event := false,
        cur := none, tasks := [], pc := SupPc.cancelling }
      { pending := [2], delivered := [1], incoming := some 1, event := false,
        cur := none, tasks := [], pc := SupPc.creating } :=
    SupStep.cancelStep _ rfl
  have t4 : SupStep (σ := Nat)
      { pending := [2], delivered := [1], incoming := some 1, event := false,
        cur := none, tasks := [], pc := SupPc.creating }
      { pending := [2], delivered := [1], incoming := some 1, event := false,
        cur := some 0, tasks := [TaskRec.mk 1 TStatus.running],
        pc := SupPc.idle } :=
    SupStep.createSome _ 1 rfl rfl
  have t5 : SupStep (σ := Nat)
      { pending := [2], delivered := [1], incoming := some 1, event := false,
        cur := some 0, tasks := [TaskRec.mk 1 TStatus.running],
        pc := SupPc.idle }
      { pending := [], delivered := [1, 2], incoming := some 2, event := true,
        cur := some 0, tasks := [TaskRec.mk 1 TStatus.running],
        pc := SupPc.idle } :=
    SupStep.deliver _ 2 [] rfl
  have t6 : SupStep (σ := Nat)
      { pending := [], delivered := [1, 2], incoming := some 2, event := true,
        cur := some 0, tasks := [TaskRec.mk 1 TStatus.running],
        pc := SupPc.idle }
      { pending := [], delivered := [1, 2], incoming := some 2, event := false,
        cur := some 0, tasks := [TaskRec.mk 1 TStatus.running],
        pc := SupPc.cancelling } :=
    SupStep.wake _ rfl rfl
  have t7 : SupStep (σ := Nat)
      { pending := [], delivered := [1, 2], incoming := some 2, event := false,
        cur := some 0, tasks := [TaskRec.mk 1 TStatus.running],
        pc := SupPc.cancelling }
      { pending := [], delivered := [1, 2], incoming := some 2, event := false,
        cur := some 0, tasks := [TaskRec.mk 1 TStatus.cancelled],
        pc := SupPc.creating } :=
    SupStep.cancelStep _ rfl
  have t8 : SupStep (σ := Nat)
      { pending := [], delivered := [1, 2], incoming := some 2, event := false,
        cur := some 0, tasks := [TaskRec.mk 1 TStatus.cancelled],
        pc := SupPc.creating }
      { pending := [], delivered := [1, 2], incoming := some 2, event := false,
        cur := some 1, tasks := [TaskRec.mk 1 TStatus.cancelled,
          TaskRec.mk 2 TStatus.running],
        pc := SupPc.idle } :=
    SupStep.createSome _ 2 rfl rfl
  have hchain : Relation.ReflTransGen (SupStep (σ := Nat)) (supInit [1, 2])
      { pending := [], delivered := [1, 2], incoming := some 2, event := false,
        cur := some 1, tasks := [TaskRec.mk 1 TStatus.cancelled,
          TaskRec.mk 2 TStatus.running],
        pc := SupPc.idle } :=
    Relation.ReflTransGen.tail (Relation.ReflTransGen.tail
      (Relation.ReflTransGen.tail (Relation.ReflTransGen.tail
        (Relation.ReflTransGen.tail (Relation.ReflTransGen.tail
          (Relation.ReflTransGen.tail (Relation.ReflTransGen.single t1)
            t2) t3) t4) t5) t6) t7) t8
  exact (c1_supervisor_single_flight [1, 2] _ hchain).2.2
    ⟨rfl, rfl, rfl⟩ 1 (TaskRec.mk 2 TStatus.running) rfl rfl

/-! ## Reply correlator lemmas -/

theorem consumerRun_append_gt {V : Type} (uid : Int) (s : _Session V)
    (post : List (_Session V)) (hs : uid < s.uid) :
    ∀ pre : List (_Session V),
      (consumerRun uid (pre ++ s :: post)).1 = (consumerRun uid pre).1
      ∧ (consumerRun uid (pre ++ s :: post)).2 = true := by
  intro pre
  induction pre with
  | nil =>
    have h1 : ¬(s.uid = uid) := by omega
    simp [consumerRun, h1, hs]
  | cons a pre ih =>
    by_cases ha : a.uid = uid
    · simp [consumerRun, ha, ih.1, ih.2]
    · by_cases ha2 : uid < a.uid
      · simp [consumerRun, ha, ha2]
      · simp [consumerRun, ha, ha2, ih.1, ih.2]

theorem consumerRun_mem {V : Type} (uid : Int) :
    ∀ (ss : List (_Session V)) item, item ∈ (consumerRun uid ss).1 →
      ∃ sess ∈ ss, sess.uid = uid ∧ item ∈ sess.acc := by
  intro ss
  induction ss with
  | nil =>
    intro item h
    simp [consumerRun] at h
  | cons a rest ih =>
    intro item h
    by_cases ha : a.uid = uid
    · simp only [consumerRun, if_pos ha] at h
      rcases List.mem_append.1 h with h1 | h1
      · exact ⟨a, List.mem_cons_self a rest, ha, h1⟩
      · rcases ih item h1 with ⟨sess, hs1, hs2, hs3⟩
        exact ⟨sess, List.mem_cons_of_mem a hs1, hs2, hs3⟩
    · by_cases ha2 : uid < a.uid
      · simp [consumerRun, ha, ha2] at h
      · simp only [consumerRun, if_neg ha, if_neg ha2] at h
        rcases ih item h with ⟨sess, hs1, hs2, hs3⟩
        exact ⟨sess, List.mem_cons_of_mem a hs1, hs2, hs3⟩

theorem accOk_step {V : Type} (st : LspState V) (evs : List (LspEv V))
    (e : LspEv V) (h : AccOk st evs) : AccOk (runEv st e) (evs ++ [e]) := by
  cases e with
  | openReq mth =>
    intro m item hmem
    by_cases hm : m = mth
    · exfalso
      rw [hm] at hmem
      simp [runEv, async_request_open] at hmem
    · have hst : (runEv st (LspEv.openReq mth)).state m = st.state m := by
        simp [runEv, async_request_open, hm]
      rw [hst] at hmem
      rcases h m item hmem with ⟨p, hp1, hp2, hp3, hp4⟩
      refine ⟨p, List.mem_append_left _ hp1, hp2, ?_, hp4⟩
      rw [hst]
      exact hp3
  | notify p =>
    intro m item hmem
    by_cases hc : p.uid = (st.state p.method).uid
    · by_cases hm : m = p.method
      · have hst : (runEv st (LspEv.notify p)).state m =
            { uid := p.uid, done := p.done,
              acc := (st.state p.method).acc ++ [(p.client, p.reply)] } := by
          simp [runEv, _lsp_notify, hc, hm]
        rw [hst] at hmem
        simp only at hmem
        rcases List.mem_append.1 hmem with hold | hnew
        · have hold2 : item ∈ (st.state m).acc := by
            rw [hm]
            exact hold
          rcases h m item hold2 with ⟨q, hq1, hq2, hq3, hq4⟩
          refine ⟨q, List.mem_append_left _ hq1, hq2, ?_, hq4⟩
          rw [hst]
          rw [hm] at hq3
          rw [hq3, ← hc]
        · rw [List.mem_singleton] at hnew
          refine ⟨p, List.mem_append_right _ (List.mem_singleton.2 rfl),
            hm.symm, ?_, hnew⟩
          rw [hst]
      · have hst : (runEv st (LspEv.notify p)).state m = st.state m := by
          simp [runEv, _lsp_notify, hc, hm]
        rw [hst] at hmem
        rcases h m item hmem with ⟨q, hq1, hq2, hq3, hq4⟩
        refine ⟨q, List.mem_append_left _ hq1, hq2, ?_, hq4⟩
        rw [hst]
        exact hq3
    · have hst : runEv st (LspEv.notify p) = st := by
        simp [runEv, _lsp_notify, hc]
      rw [hst] at hmem ⊢
      rcases h m item hmem with ⟨q, hq1, hq2, hq3, hq4⟩
      exact ⟨q, List.mem_append_left _ hq1, hq2, hq3, hq4⟩

theorem accOk_run {V : Type} (more : List (LspEv V)) :
    ∀ (st : LspState V) (evs : List (LspEv V)),
      AccOk st evs → AccOk (runEvs st more) (evs ++ more) := by
  induction more with
  | nil =>
    intro st evs h
    simpa [runEvs] using h
  | cons e rest ih =>
    intro st evs h
    have h3 := ih (runEv st e) (evs ++ [e]) (accOk_step st evs e h)
    have h4 : runEvs st (e :: rest) = runEvs (runEv st e) rest := rfl
    rw [h4]
    simpa [List.append_assoc] using h3

/-- C2: if the channel's session epoch becomes strictly greater than the
epoch `uid` a consumer awaits, the consumer's sequence terminates at that
snapshot — the loop breaks (`true`), every later snapshot is ignored, and
nothing beyond the items already yielded before the superseding snapshot is
yielded; moreover a payload tagged with the superseded `uid` ingested after
that point leaves the channel state completely unchanged. -/
theorem c2_supersession_abort {V : Type} (uid : Int)
    (pre post : List (_Session V)) (s : _Session V) (hs : uid < s.uid) :
    ((consumerRun uid (pre ++ s :: post)).1 = (consumerRun uid pre).1
      ∧ (consumerRun uid (pre ++ s :: post)).2 = true)
    ∧ ∀ (st : LspState V) (p : _Payload V), p.uid = uid →
        uid < (st.state p.method).uid → (_lsp_notify st p).1 = st := by
  refine ⟨consumerRun_append_gt uid s post hs pre, ?_⟩
  intro st p hp hlt
  have hne : ¬(p.uid = (st.state p.method).uid) := by omega
  simp [_lsp_notify, hne]

/-- Witness for C2 at a concrete input: consumer on epoch 0, superseding
snapshot with epoch 1, a later snapshot still tagged 0 — the loop has
terminated. -/
theorem c2_supersession_abort_witness :
    (consumerRun 0 ([] ++ _Session.mk 1 false [] ::
        [_Session.mk 0 false [((none : Option String), (5 : Nat))]])).2
      = true :=
  (c2_supersession_abort 0 [] [_Session.mk 0 false [(none, 5)]]
    (_Session.mk 1 false []) (by decide)).1.2

/-- C3: `_lsp_notify` (1) discards a payload whose uid differs from the
channel's current session uid, leaving the whole module state (in particular
`acc` and `done`) unchanged; (2) on a uid match it appends
`(client, reply)`, records the payload's `done`, leaves every other channel
alone, and notifies all waiters; (3) over any event trace from the initial
state, every accumulated item stems from a notify event whose uid equals the
session's current uid — a stale (lower-epoch) ingest never enters an
accumulator; and (4) a consumer only ever yields items out of snapshots
whose uid equals its own, so a stale reply never appears in any consumer's
yielded sequence. -/
theorem c3_stale_rejection {V : Type} :
    (∀ (st : LspState V) (p : _Payload V),
        p.uid ≠ (st.state p.method).uid → (_lsp_notify st p).1 = st)
    ∧ (∀ (st : LspState V) (p : _Payload V),
        p.uid = (st.state p.method).uid →
          (_lsp_notify st p).1.state p.method =
              { uid := p.uid, done := p.done,
                acc := (st.state p.method).acc ++ [(p.client, p.reply)] }
            ∧ (∀ m, m ≠ p.method →
                (_lsp_notify st p).1.state m = st.state m)
            ∧ (_lsp_notify st p).2 = true)
    ∧ (∀ evs : List (LspEv V), AccOk (runEvs (initLsp V) evs) evs)
    ∧ (∀ (uid : Int) (ss : List (_Session V)) item,
        item ∈ (consumerRun uid ss).1 →
          ∃ sess ∈ ss, sess.uid = uid ∧ item ∈ sess.acc) := by
  refine ⟨?_, ?_, ?_, ?_⟩
  · intro st p hne
    simp [_lsp_notify, hne]
  · intro st p heq
    refine ⟨?_, ?_, ?_⟩
    · simp [_lsp_notify, heq]
    · intro m hm
      simp [_lsp_notify, heq, hm]
    · simp [_lsp_notify, heq]
  · intro evs
    have h0 : AccOk (initLsp V) [] := by
      intro m item hmem
      simp [initLsp] at hmem
    simpa using accOk_run evs (initLsp V) [] h0
  · exact consumerRun_mem

/-- Witness for C3 at concrete inputs: a stale payload (uid 0 against a
session at uid 1) leaves the state unchanged, and a matching payload
appends its item. -/
theorem c3_stale_rejection_witness :
    ((_lsp_notify ((async_request_open ((async_request_open
          (initLsp Nat) ("m")).1) ("m")).1)
        (_Payload.mk ("m") 0 (some ("c")) true 7)).1 =
      (async_request_open ((async_request_open (initLsp Nat) ("m")).1)
        ("m")).1)
    ∧ ((_lsp_notify ((async_request_open (initLsp Nat) ("m")).1)
        (_Payload.mk ("m") 0 (some ("c")) false 7)).1.state ("m") =
      _Session.mk 0 false [(some ("c"), 7)]) := by
  constructor
  · exact (c3_stale_rejection (V := Nat)).1 _ _ (by decide)
  · exact ((c3_stale_rejection (V := Nat)).2.1 _
      (_Payload.mk ("m") 0 (some ("c")) false 7) (by decide)).1

/-- C4 (divergence demonstration): a payload with the awaited uid and
`done=true` is accepted into the session, yet the consumer loop, having
yielded the accumulated items, does not terminate — the exit flag is
`false`, i.e. it goes back to waiting on the condition.  The `if done:
break` in the source tests the local `done` bound to `False` at line 64 and
never reassigned; the session's `done` field is never read by the loop. -/
theorem c4_done_flag_never_breaks :
    ((_lsp_notify ((async_request_open (initLsp Nat) ("m")).1)
        (_Payload.mk ("m") 0 (some ("c")) true 7)).1.state ("m") =
      _Session.mk 0 true [(some ("c"), 7)])
    ∧ consumerRun 0 [_Session.mk 0 true [(some ("c"), (7 : Nat))]] =
        ([(some ("c"), 7)], false) := by
  constructor
  · decide
  · decide

/-- C5 (divergence demonstration): two payloads for epoch 0 are accepted one
after the other; a consumer awaiting epoch 0 that wakes after each ingest
yields the first item twice — the loop re-yields the entire accumulator at
every wakeup, nothing tracks the items already yielded. -/
theorem c5_duplicate_yield :
    ((_lsp_notify ((async_request_open (initLsp Nat) ("m")).1)
        (_Payload.mk ("m") 0 (some ("a")) false 1)).1.state ("m") =
      _Session.mk 0 false [(some ("a"), 1)])
    ∧ ((_lsp_notify ((_lsp_notify ((async_request_open (initLsp Nat)
          ("m")).1) (_Payload.mk ("m") 0 (some ("a")) false 1)).1)
        (_Payload.mk ("m") 0 (some ("b")) false 2)).1.state ("m") =
      _Session.mk 0 false [(some ("a"), 1), (some ("b"), 2)])
    ∧ (consumerRun 0 [_Session.mk 0 false [(some ("a"), (1 : Nat))],
        _Session.mk 0 false [(some ("a"), 1), (some ("b"), 2)]]).1 =
      [(some ("a"), 1), (some ("a"), 1), (some ("b"), 2)] := by
  refine ⟨?_, ?_, ?_⟩
  · decide
  · decide
  · decide

theorem lsp_notify_uids {V : Type} (st : LspState V) (p : _Payload V) :
    (_lsp_notify st p).1.uids = st.uids := by
  unfold _lsp_notify
  split <;> rfl

theorem runUids_lb {V : Type} (evs : List (LspEv V)) :
    ∀ st : LspState V, ∀ u ∈ runUids st evs, (st.uids : Int) ≤ u := by
  induction evs with
  | nil =>
    intro st u hu
    simp [runUids] at hu
  | cons e rest ih =>
    intro st u hu
    cases e with
    | openReq m =>
      simp only [runUids, List.mem_cons] at hu
      rcases hu with h | h
      · rw [h]
        exact le_refl _
      · have h2 := ih _ u h
        have h3 : (((async_request_open st m).1.uids : Nat) : Int) =
            ((st.uids + 1 : Nat) : Int) := by
          simp [async_request_open]
        rw [h3] at h2
        omega
    | notify p =>
      have h2 := ih _ u (by simpa [runUids] using hu)
      rw [lsp_notify_uids] at h2
      exact h2

/-- C9: over any interleaving of `async_request` opens (on any channels) and
payload ingests, the uids handed out by `async_request` are strictly
increasing in call order — they are drawn from the single global `_UIDS`
counter — and hence every subsequence of them (in particular the opens of
any one channel) is strictly increasing and free of reuse. -/
theorem c9_epoch_monotonicity {V : Type} (evs : List (LspEv V)) :
    List.Pairwise (fun a b : Int => a < b) (runUids (initLsp V) evs)
    ∧ ∀ l : List Int, l.Sublist (runUids (initLsp V) evs) →
        List.Pairwise (fun a b : Int => a < b) l := by
  have main : ∀ (evs2 : List (LspEv V)) (st : LspState V),
      List.Pairwise (fun a b : Int => a < b) (runUids st evs2) := by
    intro evs2
    induction evs2 with
    | nil =>
      intro st
      simp [runUids]
    | cons e rest ih =>
      intro st
      cases e with
      | openReq m =>
        simp only [runUids, List.pairwise_cons]
        constructor
        · intro u hu
          have h2 := runUids_lb rest _ u hu
          have h3 : (((async_request_open st m).1.uids : Nat) : Int) =
              ((st.uids + 1 : Nat) : Int) := by
            simp [async_request_open]
          rw [h3] at h2
          have h4 : (async_request_open st m).2 = (st.uids : Int) := rfl
          rw [h4]
          omega
        · exact ih _
      | notify p =>
        simpa [runUids] using ih _
  exact ⟨main evs _, fun l hl => List.Pairwise.sublist hl (main evs _)⟩

/-- Witness for C9: two opens on channels named a and b hand out 0 then 1;
the theorem applied to the concrete trace, with the sublist hypothesis
discharged for the full list. -/
theorem c9_epoch_monotonicity_witness :
    List.Pairwise (fun a b : Int => a < b)
      (runUids (initLsp Nat) [LspEv.openReq ("a"), LspEv.openReq ("b")])
    ∧ List.Pairwise (fun a b : Int => a < b) [(0 : Int), 1] := by
  constructor
  · exact (c9_epoch_monotonicity [LspEv.openReq ("a"),
      LspEv.openReq ("b")]).1
  · exact (c9_epoch_monotonicity (V := Nat) [LspEv.openReq ("a"),
      LspEv.openReq ("b")]).2 [0, 1] (List.Sublist.refl _)

/-- C6: the gating predicate `_should_cont` — (1) a manual trigger always
proceeds; (2) with no manual flag, an unchanged change identifier never
proceeds; (3) otherwise, with the caret exactly at the last inserted
position, it proceeds exactly when the last inserted edit was a path-like
(directory) continuation; (4) otherwise it proceeds exactly when the symbol
fragment before the caret is non-empty, or the text before the caret is
non-empty after stripping trailing whitespace with at most one whitespace
character stripped. -/
theorem c6_should_cont_gating {E X : Type} (state : SrvState E X)
    (prev cur : Ctx) :
    (cur.manual = true → _should_cont state prev cur = true)
    ∧ (cur.manual = false → prev.change_id = cur.change_id →
        _should_cont state prev cur = false)
    ∧ (cur.manual = false → prev.change_id ≠ cur.change_id →
        cur.position = state.inserted_pos →
        (_should_cont state prev cur = true ↔
          state.last_edit.comp.kind = CompKind.pathKind true))
    ∧ (cur.manual = false → prev.change_id ≠ cur.change_id →
        cur.position ≠ state.inserted_pos →
        (_should_cont state prev cur = true ↔
          (cur.syms_before ≠ "" ∨
            (pyRstrip cur.line_before ≠ "" ∧
              cur.line_before.length -
                (pyRstrip cur.line_before).length ≤ 1)))) := by
  refine ⟨?_, ?_, ?_, ?_⟩
  · intro hman
    simp [_should_cont, hman]
  · intro hman hchg
    simp [_should_cont, hman, hchg]
  · intro hman hchg hpos
    rw [show _should_cont state prev cur =
        (match state.last_edit.comp.kind with
          | CompKind.pathKind isDir => isDir
          | _ => false) from by simp [_should_cont, hman, hchg, hpos]]
    cases hk : state.last_edit.comp.kind with
    | lspKind => simp
    | pathKind isDir => cases isDir <;> simp
    | noKind => simp
  · intro hman hchg hpos
    by_cases hsym : cur.syms_before = ""
    · simp [_should_cont, hman, hchg, hpos, hsym]
    · simp [_should_cont, hman, hchg, hpos, hsym]

/-- Witness for C6 at concrete inputs: a manual trigger proceeds, an
unchanged change id does not, and a non-empty symbol fragment proceeds. -/
theorem c6_should_cont_gating_witness :
    (_should_cont
        (SrvState.mk (E := Nat) (X := Nat) (0, 0)
          (Metric.mk (Comp.mk 0 CompKind.noKind []) 0))
        (Ctx.mk false 0 (0, 0) "" "")
        (Ctx.mk true 0 (0, 0) "" "") = true)
    ∧ (_should_cont
        (SrvState.mk (E := Nat) (X := Nat) (0, 0)
          (Metric.mk (Comp.mk 0 CompKind.noKind []) 0))
        (Ctx.mk false 3 (0, 0) "" "")
        (Ctx.mk false 3 (1, 1) ("x") ("x")) = false)
    ∧ (_should_cont
        (SrvState.mk (E := Nat) (X := Nat) (0, 0)
          (Metric.mk (Comp.mk 0 CompKind.noKind []) 0))
        (Ctx.mk false 0 (0, 0) "" "")
        (Ctx.mk false 1 (1, 1) ("x") ("x")) = true) := by
  refine ⟨?_, ?_, ?_⟩
  · exact (c6_should_cont_gating _ _ _).1 rfl
  · exact (c6_should_cont_gating _ _ _).2.1 rfl rfl
  · exact ((c6_should_cont_gating _ _ _).2.2.2 rfl (by decide)
      (by decide)).mpr (Or.inl (by decide))

/-- C7: for an LSP-extern metric missing from the enrichment cache,
`_resolve` returns the original metric unchanged both on timeout and when
the outstanding wait surfaces no completion (a failure is logged away by the
wrapper and produces no completion) — the function is total, so no failure
propagates to the caller — and on a reply it returns the metric with the
reply's `secondary_edits` merged in and everything else intact. -/
theorem c7_resolve_timeout_fallback {E X : Type}
    (lru : Nat → Option (Comp E)) (metric : Metric E X)
    (hk : metric.comp.kind = CompKind.lspKind)
    (hmiss : lru metric.comp.uid = none) :
    _resolve lru metric WaitResult.timedOut = metric
    ∧ _resolve lru metric (WaitResult.completed none) = metric
    ∧ ∀ c : Comp E, _resolve lru metric (WaitResult.completed (some c)) =
        { metric with comp := { metric.comp with
            secondary_edits := c.secondary_edits } } := by
  refine ⟨?_, ?_, ?_⟩
  · simp [_resolve, hk, hmiss]
  · simp [_resolve, hk, hmiss]
  · intro c
    simp [_resolve, hk, hmiss]

/-- Witness for C7 at a concrete input: LSP metric, empty cache — timeout
returns the metric unchanged, and a reply merges its secondary edits. -/
theorem c7_resolve_timeout_fallback_witness :
    (_resolve (fun _ => none)
        (Metric.mk (E := Nat) (X := Nat) (Comp.mk 0 CompKind.lspKind []) 4)
        WaitResult.timedOut =
      Metric.mk (Comp.mk 0 CompKind.lspKind []) 4)
    ∧ (_resolve (fun _ => none)
        (Metric.mk (E := Nat) (X := Nat) (Comp.mk 0 CompKind.lspKind []) 4)
        (WaitResult.completed (some (Comp.mk 9 CompKind.lspKind [5]))) =
      Metric.mk (Comp.mk 0 CompKind.lspKind [5]) 4) := by
  constructor
  · exact (c7_resolve_timeout_fallback (fun _ => none) _ rfl rfl).1
  · exact (c7_resolve_timeout_fallback (fun _ => none) _ rfl rfl).2.2
      (Comp.mk 9 CompKind.lspKind [5])

/-- C10: for a metric whose completion is not an LSP extern, `_resolve` is
the identity on the metric, for every cache content and every wait outcome —
it depends on neither, i.e. it performs no cache lookup and never waits. -/
theorem c10_resolve_non_lsp_identity {E X : Type} (metric : Metric E X)
    (hk : metric.comp.kind ≠ CompKind.lspKind) :
    ∀ (lru : Nat → Option (Comp E)) (wr : WaitResult (Comp E)),
      _resolve lru metric wr = metric := by
  intro lru wr
  cases hkind : metric.comp.kind with
  | lspKind => exact absurd hkind hk
  | pathKind isDir => simp [_resolve, hkind]
  | noKind => simp [_resolve, hkind]

/-- Witness for C10 at a concrete input: a path-extern metric is returned
unchanged even with a populated cache and an available reply. -/
theorem c10_resolve_non_lsp_identity_witness :
    _resolve (fun _ => some (Comp.mk 1 CompKind.lspKind [8]))
      (Metric.mk (E := Nat) (X := Nat)
        (Comp.mk 0 (CompKind.pathKind true) []) 4)
      (WaitResult.completed (some (Comp.mk 9 CompKind.lspKind [5]))) =
    Metric.mk (Comp.mk 0 (CompKind.pathKind true) []) 4 :=
  c10_resolve_non_lsp_identity _ (by decide)
    (fun _ => some (Comp.mk 1 CompKind.lspKind [8]))
    (WaitResult.completed (some (Comp.mk 9 CompKind.lspKind [5])))

theorem contRun_empty {E B : Type} (f : Unit → Except E B) :
    contRun f Slot.empty = Except.ok (settledSlot f) := by
  unfold contRun settledSlot
  cases f () <;> rfl

/-- C8: `Executor.submit` — (1) the caller gets back exactly `f`'s outcome:
the returned value, or the exception re-raised (the future is always
settled, never left blocking); (2) the worker loop survives every
submission, including failing ones: over any finite queue it executes every
item in order and settles every future, never terminating early; (3)
settling an already-settled future is a silent no-op — the underlying
`set_result`/`set_exception` would raise `InvalidStateError`, and the
`suppress` wrapper turns that into leaving the slot unchanged. -/
theorem c8_executor_submit {E B : Type} :
    (∀ f : Unit → Except E B, submit f = some (f ()))
    ∧ (∀ fs : List (Unit → Except E B),
        workerLoop fs = Except.ok (fs.map settledSlot))
    ∧ (∀ (s : Slot E B) (b : B) (e : E), s ≠ Slot.empty →
        suppressInvalid s (set_result s b) = s
        ∧ suppressInvalid s (set_exception s e) = s
        ∧ set_result s b = Except.error ()
        ∧ set_exception s e = Except.error ()) := by
  refine ⟨?_, ?_, ?_⟩
  · intro f
    unfold submit
    rw [contRun_empty]
    unfold settledSlot futResult
    cases f () <;> rfl
  · intro fs
    induction fs with
    | nil => rfl
    | cons f rest ih =>
      unfold workerLoop
      rw [contRun_empty, ih]
      rfl
  · intro s b e hs
    cases s with
    | empty => exact absurd rfl hs
    | value b2 => exact ⟨rfl, rfl, rfl, rfl⟩
    | failed e2 => exact ⟨rfl, rfl, rfl, rfl⟩

/-- Witness for C8 at concrete inputs: a succeeding and a failing submission
both come back to the caller, and re-settling a settled slot is a no-op. -/
theorem c8_executor_submit_witness :
    (submit (fun _ => (Except.ok 3 : Except Nat Nat)) =
      some (Except.ok 3))
    ∧ (workerLoop [fun _ => (Except.error 7 : Except Nat Nat),
        fun _ => Except.ok 3] =
      Except.ok [Slot.failed 7, Slot.value 3])
    ∧ suppressInvalid (Slot.value (5 : Nat))
        (set_result (E := Nat) (Slot.value 5) 4) = Slot.value 5 := by
  refine ⟨?_, ?_, ?_⟩
  · exact (c8_executor_submit (E := Nat) (B := Nat)).1 _
  · exact (c8_executor_submit (E := Nat) (B := Nat)).2.1 _
  · exact ((c8_executor_submit (E := Nat) (B := Nat)).2.2
      (Slot.value 5) 4 0 (by simp)).1
